import Mathlib

/-!
Verification of `pathwayfunctions.py` (metabolomics pathway analysis).

Shallow embedding of the two functions of the module:
  * `t_tests` — per-metabolite two-sample t-tests with multiple-testing correction;
  * `over_representation_analysis` — pathway over-representation analysis (ORA)
    with a right-tailed Fisher exact test and Benjamini-Hochberg correction.

Modelling conventions:
  * identifiers are `String`; missing table cells (pandas `NaN`) are `Option.none`;
  * rational arithmetic (`ℚ`) replaces floating point; the Fisher p-value is the
    exact hypergeometric tail that `scipy.stats.fisher_exact` approximates;
  * Python's unordered `set` iteration (`list(set(...))` at line 58 of the source)
    is abstracted by an enumeration function `enum`; `ValidEnum` states exactly
    that `enum l` lists the members of `l` without duplicates, in some order;
  * external-library numerics of the t-test (`1/sqrt` and the Student-t survival
    function) are abstracted as function parameters `rsqrt` and `sf`;
  * nonfinite IEEE results of the t-test are modelled by `FVal` (`nan`, `±inf`);
  * `statsmodels.stats.multipletests` raises `ZeroDivisionError` exactly on an
    empty p-value list (it computes `alpha / float(ntests)`); this is modelled by
    an `Option` result, `none` on the empty list.
-/

namespace PathwayFunctions

/-- One row of the pathway table `pathways_df`: the index entry (pathway ID), the
`Pathway_name` column, and the compound-slot columns (`none` = missing/NaN). -/
structure PathwayRow where
  id : String
  name : String
  slots : List (Option String)
deriving DecidableEq, Repr

/-- One row of the ORA result DataFrame
`["Pathway_ID", "Pathway_name", "Hits", "Coverage", "P-value", "P-adjust"]`. -/
structure OraRow where
  id : String
  name : String
  hits : String
  coverage : String
  pvalue : ℚ
  padj : ℚ
deriving DecidableEq, Repr

/-- Validity of an enumeration of a Python set built from a list: it lists exactly
the member values, each once, in an arbitrary order. -/
def ValidEnum (enum : List (Option String) → List (Option String)) : Prop :=
  ∀ l, (enum l).Nodup ∧ ∀ x, x ∈ enum l ↔ x ∈ l

/-- Source line 58-59: `pathway_compounds = list(set(row))` followed by dropping
the NaN entries (`str(i) != "nan"`). -/
def pathwayCompounds (enum : List (Option String) → List (Option String))
    (slots : List (Option String)) : List String :=
  (enum slots).filterMap id

/-- Source line 65: `len(set(DA_list) & set(pathway_compounds))` — the number of
distinct DA identifiers that lie in the pathway. -/
def DA_in_pathway (DA_list pathway_compounds : List String) : ℕ :=
  ((DA_list.dedup).filter (fun x => decide (x ∈ pathway_compounds))).length

/-- Source line 67: `len(np.setdiff1d(DA_list, pathway_compounds))`.
`np.setdiff1d` returns the unique values of its first argument that are not in
its second, so this is the number of distinct DA identifiers outside the
pathway. -/
def DA_not_in_pathway (DA_list pathway_compounds : List String) : ℕ :=
  ((DA_list.dedup).filter (fun x => decide (¬ x ∈ pathway_compounds))).length

/-- The spec's description of the count `c`: a list difference in which every
duplicate occurrence in `DA_list` contributes. Stated for comparison with the
source's `DA_not_in_pathway`; it is NOT the source computation. -/
def DA_not_in_pathway_listdiff (DA_list pathway_compounds : List String) : ℕ :=
  (DA_list.filter (fun x => decide (¬ x ∈ pathway_compounds))).length

/-- Source line 69: `len(set(pathway_compounds) & set(np.setdiff1d(background_list,
DA_list)))` — distinct pathway compounds that are in the background but not DA. -/
def compound_in_pathway_not_DA (background_list DA_list pathway_compounds : List String) : ℕ :=
  ((pathway_compounds.dedup).filter
    (fun x => decide (x ∈ background_list ∧ ¬ x ∈ DA_list))).length

/-- Source lines 71-72: `len(np.setdiff1d(np.setdiff1d(background_list, DA_list),
pathway_compounds))` — distinct background identifiers neither DA nor in the
pathway. -/
def compound_not_in_pathway_not_DA (background_list DA_list pathway_compounds : List String) : ℕ :=
  ((background_list.dedup).filter
    (fun x => decide (¬ x ∈ DA_list ∧ ¬ x ∈ pathway_compounds))).length

/-- Exact value of `scipy.stats.fisher_exact([[a, b], [c, d]], alternative="greater")`
(source line 88): the upper tail of the hypergeometric distribution of the 2x2
table with the observed margins, summed from the observed count `a` upward. -/
def fisher_exact_greater (a b c d : ℕ) : ℚ :=
  (((List.range (min (a + b) (a + c) + 1)).filter (fun k => decide (a ≤ k))).map
    (fun k =>
      (((a + c).choose k * ((a + b + c + d) - (a + c)).choose ((a + b) - k) : ℕ) : ℚ) /
        (((a + b + c + d).choose (a + b) : ℕ) : ℚ))).sum

/-- Number of elements of `l` that are `≤ q` (the 1-based rank, in the sorted
order of `l`, of the last occurrence of the value `q`). -/
def bhCnt (l : List ℚ) (q : ℚ) : ℕ :=
  (l.filter (fun x => decide (x ≤ q))).length

/-- Benjamini-Hochberg adjusted value of the entry `p` of the list `l`, in the
closed per-element form of the statsmodels `fdr_bh` computation (sort ascending,
scale the value at rank `m` by `n/m`, take the running minimum from the largest
rank down, clip at 1, restore the original order): the minimum of `1` and of
`q * n / rank(q)` over the values `q ≥ p` of the list. -/
def bhFun (l : List ℚ) (p : ℚ) : ℚ :=
  ((l.filter (fun q => decide (p ≤ q))).map
    (fun q => q * (l.length : ℚ) / ((bhCnt l q : ℕ) : ℚ))).foldr min 1

/-- Model of `sm.stats.multipletests(pvals, 0.05, method="fdr_bh")`:
`none` models the `ZeroDivisionError` the library raises exactly when the list is
empty (it computes `alpha / float(ntests)`); otherwise the adjusted p-values in
input order. -/
def multipletests_fdr_bh (pvals : List ℚ) : Option (List ℚ) :=
  if pvals.isEmpty then none else some (pvals.map (bhFun pvals))

/-- Source line 80: `str(a) + "/" + str(b + a)` (the "Hits" annotation). -/
def hitsStr (background_list DA_list pathway_compounds : List String) : String :=
  toString (DA_in_pathway DA_list pathway_compounds) ++ "/" ++
    toString (compound_in_pathway_not_DA background_list DA_list pathway_compounds +
      DA_in_pathway DA_list pathway_compounds)

/-- Source lines 81-82: `str(b + a) + "/" + str(len(pathway_compounds))`. -/
def covStr (background_list DA_list pathway_compounds : List String) : String :=
  toString (compound_in_pathway_not_DA background_list DA_list pathway_compounds +
      DA_in_pathway DA_list pathway_compounds) ++ "/" ++
    toString pathway_compounds.length

/-- The Fisher p-value the loop records for one pathway row (source lines 85-89). -/
def pathway_pvalue (enum : List (Option String) → List (Option String))
    (DA_list background_list : List String) (r : PathwayRow) : ℚ :=
  fisher_exact_greater
    (DA_in_pathway DA_list (pathwayCompounds enum r.slots))
    (compound_in_pathway_not_DA background_list DA_list (pathwayCompounds enum r.slots))
    (DA_not_in_pathway DA_list (pathwayCompounds enum r.slots))
    (compound_not_in_pathway_not_DA background_list DA_list (pathwayCompounds enum r.slots))

/-- The five parallel accumulator lists of the ORA loop (source lines 49-54):
`pathways_with_compounds`, `pathway_names_with_compounds`, `pathway_ratio`,
`pathway_coverage`, `pvalues`. -/
structure OraAcc where
  ids : List String
  names : List String
  hitsList : List String
  covList : List String
  ps : List ℚ
deriving DecidableEq, Repr

/-- The `for pathway in pathways` loop of the source (lines 56-89), with its two
`continue` filters and the five appends. -/
def oraLoop (enum : List (Option String) → List (Option String))
    (DA_list background_list : List String) : List PathwayRow → OraAcc
  | [] => ⟨[], [], [], [], []⟩
  | r :: rest =>
    let pc := pathwayCompounds enum r.slots
    if pc = [] ∨ pc.length < 2 then
      -- line 60: `if not pathway_compounds or len(pathway_compounds) < 2: continue`
      oraLoop enum DA_list background_list rest
    else if DA_in_pathway DA_list pc = 0 ∨
        compound_in_pathway_not_DA background_list DA_list pc + DA_in_pathway DA_list pc < 2 then
      -- line 74: `if DA_in_pathway == 0 or (compound_in_pathway_not_DA + DA_in_pathway) < 2: continue`
      oraLoop enum DA_list background_list rest
    else
      let acc := oraLoop enum DA_list background_list rest
      ⟨r.id :: acc.ids, r.name :: acc.names,
        hitsStr background_list DA_list pc :: acc.hitsList,
        covStr background_list DA_list pc :: acc.covList,
        pathway_pvalue enum DA_list background_list r :: acc.ps⟩

/-- Source line 43: `dropna(axis=0, how='all', subset=compound columns)` keeps a
row iff some compound slot is present. -/
def keepRow (r : PathwayRow) : Bool :=
  r.slots.any (fun s => s.isSome)

/-- Python's `zip` of the six result columns (source lines 92-95), stopping at the
shortest list. -/
def zip6 : List String → List String → List String → List String → List ℚ → List ℚ →
    List OraRow
  | i :: is', n :: ns, h :: hs, c :: cs, p :: ps, q :: qs =>
    ⟨i, n, h, c, p, q⟩ :: zip6 is' ns hs cs ps qs
  | _, _, _, _, _, _ => []

/-- Embedding of `over_representation_analysis(DA_list, background_list, pathways_df)`
(source lines 34-100). The `none` branch models the `except ZeroDivisionError`
fallback (lines 96-99): it is reached exactly when the collected p-value list is
empty, where `padj = [1] * 0 = []` and the zip of the (all empty) lists yields the
empty table. -/
def over_representation_analysis (enum : List (Option String) → List (Option String))
    (DA_list background_list : List String) (pathways_df : List PathwayRow) : List OraRow :=
  let kept := pathways_df.filter keepRow
  let acc := oraLoop enum DA_list background_list kept
  match multipletests_fdr_bh acc.ps with
  | some padj => zip6 acc.ids acc.names acc.hitsList acc.covList acc.ps padj
  | none => []

/-- The conjunction of the two survival filters of the loop, as a Boolean
predicate on a pathway row. -/
def passes (enum : List (Option String) → List (Option String))
    (DA_list background_list : List String) (r : PathwayRow) : Bool :=
  !(decide (pathwayCompounds enum r.slots = [] ∨ (pathwayCompounds enum r.slots).length < 2)) &&
    !(decide (DA_in_pathway DA_list (pathwayCompounds enum r.slots) = 0 ∨
        compound_in_pathway_not_DA background_list DA_list (pathwayCompounds enum r.slots) +
          DA_in_pathway DA_list (pathwayCompounds enum r.slots) < 2))

/-- The rows that survive both the upfront missing-row filter and the in-loop
filters, in input order. -/
def survivorRows (enum : List (Option String) → List (Option String))
    (DA_list background_list : List String) (rows : List PathwayRow) : List PathwayRow :=
  (rows.filter keepRow).filter (passes enum DA_list background_list)

/-- The result row built for a surviving pathway row, given the full list `allP`
of collected p-values (which the BH adjustment of its own p-value depends on). -/
def mkOraRow (enum : List (Option String) → List (Option String))
    (DA_list background_list : List String) (allP : List ℚ) (r : PathwayRow) : OraRow :=
  ⟨r.id, r.name,
    hitsStr background_list DA_list (pathwayCompounds enum r.slots),
    covStr background_list DA_list (pathwayCompounds enum r.slots),
    pathway_pvalue enum DA_list background_list r,
    bhFun allP (pathway_pvalue enum DA_list background_list r)⟩

/-! ## Structural lemmas about the ORA embedding -/

/-- `List.dedup` is a valid enumeration of a Python set. -/
lemma validEnum_dedup : ValidEnum List.dedup := by
  intro l
  exact ⟨List.nodup_dedup l, fun x => List.mem_dedup⟩

/-- Reversed `List.dedup` is a valid enumeration of a Python set (a second,
distinct iteration order). -/
lemma validEnum_dedup_reverse : ValidEnum (fun l => l.dedup.reverse) := by
  intro l
  refine ⟨List.nodup_reverse.mpr (List.nodup_dedup l), fun x => ?_⟩
  simp [List.mem_reverse, List.mem_dedup]

lemma mem_pathwayCompounds {enum : List (Option String) → List (Option String)}
    (h : ValidEnum enum) (slots : List (Option String)) (x : String) :
    x ∈ pathwayCompounds enum slots ↔ some x ∈ slots := by
  simp only [pathwayCompounds, List.mem_filterMap, id]
  constructor
  · rintro ⟨a, ha, rfl⟩
    exact ((h slots).2 (some x)).mp ha
  · intro hx
    exact ⟨some x, ((h slots).2 (some x)).mpr hx, rfl⟩

lemma nodup_pathwayCompounds {enum : List (Option String) → List (Option String)}
    (h : ValidEnum enum) (slots : List (Option String)) :
    (pathwayCompounds enum slots).Nodup := by
  refine List.Nodup.filterMap ?_ (h slots).1
  rintro a a' b hb hb'
  cases a with
  | none => cases hb
  | some v =>
    cases a' with
    | none => cases hb'
    | some v' =>
      simp only [id, Option.mem_def, Option.some.injEq] at hb hb'
      rw [hb, hb']

/-- With a valid enumeration, the per-pathway compound list is a permutation of
the canonical deduplication of the present slots. -/
lemma pathwayCompounds_perm {enum : List (Option String) → List (Option String)}
    (h : ValidEnum enum) (slots : List (Option String)) :
    (pathwayCompounds enum slots).Perm ((slots.filterMap id).dedup) := by
  refine (List.perm_ext_iff_of_nodup (nodup_pathwayCompounds h slots)
    (List.nodup_dedup _)).mpr ?_
  intro x
  rw [mem_pathwayCompounds h, List.mem_dedup, List.mem_filterMap]
  constructor
  · intro hx
    exact ⟨some x, hx, rfl⟩
  · rintro ⟨a, ha, hax⟩
    cases a with
    | none => cases hax
    | some v => simp only [id] at hax; rwa [hax] at ha

lemma pathwayCompounds_perm_two {enum₁ enum₂ : List (Option String) → List (Option String)}
    (h₁ : ValidEnum enum₁) (h₂ : ValidEnum enum₂) (slots : List (Option String)) :
    (pathwayCompounds enum₁ slots).Perm (pathwayCompounds enum₂ slots) :=
  (pathwayCompounds_perm h₁ slots).trans (pathwayCompounds_perm h₂ slots).symm

/-- All four contingency counts, the length, the two annotation strings and the
Fisher p-value are invariant under permuting the compound list. -/
lemma DA_in_pathway_congr {pc₁ pc₂ : List String} (h : pc₁.Perm pc₂) (DA : List String) :
    DA_in_pathway DA pc₁ = DA_in_pathway DA pc₂ := by
  unfold DA_in_pathway
  congr 1
  refine List.filter_congr ?_
  intro x _
  simp [h.mem_iff]

lemma DA_not_in_pathway_congr {pc₁ pc₂ : List String} (h : pc₁.Perm pc₂) (DA : List String) :
    DA_not_in_pathway DA pc₁ = DA_not_in_pathway DA pc₂ := by
  unfold DA_not_in_pathway
  congr 1
  refine List.filter_congr ?_
  intro x _
  simp [h.mem_iff]

lemma compound_in_pathway_not_DA_congr {pc₁ pc₂ : List String} (h : pc₁.Perm pc₂)
    (bg DA : List String) :
    compound_in_pathway_not_DA bg DA pc₁ = compound_in_pathway_not_DA bg DA pc₂ := by
  unfold compound_in_pathway_not_DA
  exact ((h.dedup).filter _).length_eq

lemma compound_not_in_pathway_not_DA_congr {pc₁ pc₂ : List String} (h : pc₁.Perm pc₂)
    (bg DA : List String) :
    compound_not_in_pathway_not_DA bg DA pc₁ = compound_not_in_pathway_not_DA bg DA pc₂ := by
  unfold compound_not_in_pathway_not_DA
  congr 1
  refine List.filter_congr ?_
  intro x _
  simp [h.mem_iff]

lemma hitsStr_congr {pc₁ pc₂ : List String} (h : pc₁.Perm pc₂) (bg DA : List String) :
    hitsStr bg DA pc₁ = hitsStr bg DA pc₂ := by
  unfold hitsStr
  rw [DA_in_pathway_congr h, compound_in_pathway_not_DA_congr h]

lemma covStr_congr {pc₁ pc₂ : List String} (h : pc₁.Perm pc₂) (bg DA : List String) :
    covStr bg DA pc₁ = covStr bg DA pc₂ := by
  unfold covStr
  rw [DA_in_pathway_congr h, compound_in_pathway_not_DA_congr h, h.length_eq]

lemma pathway_pvalue_congr {enum₁ enum₂ : List (Option String) → List (Option String)}
    (h₁ : ValidEnum enum₁) (h₂ : ValidEnum enum₂) (DA bg : List String) (r : PathwayRow) :
    pathway_pvalue enum₁ DA bg r = pathway_pvalue enum₂ DA bg r := by
  have h := pathwayCompounds_perm_two h₁ h₂ r.slots
  unfold pathway_pvalue
  rw [DA_in_pathway_congr h, compound_in_pathway_not_DA_congr h, DA_not_in_pathway_congr h,
    compound_not_in_pathway_not_DA_congr h]

lemma passes_congr {enum₁ enum₂ : List (Option String) → List (Option String)}
    (h₁ : ValidEnum enum₁) (h₂ : ValidEnum enum₂) (DA bg : List String) (r : PathwayRow) :
    passes enum₁ DA bg r = passes enum₂ DA bg r := by
  have h := pathwayCompounds_perm_two h₁ h₂ r.slots
  have hlen : (pathwayCompounds enum₁ r.slots).length = (pathwayCompounds enum₂ r.slots).length :=
    h.length_eq
  have hnil : (pathwayCompounds enum₁ r.slots = []) ↔ (pathwayCompounds enum₂ r.slots = []) := by
    constructor <;> intro hx
    · exact List.eq_nil_of_length_eq_zero (by rw [← hlen, hx]; rfl)
    · exact List.eq_nil_of_length_eq_zero (by rw [hlen, hx]; rfl)
  unfold passes
  rw [DA_in_pathway_congr h, compound_in_pathway_not_DA_congr h, hlen]
  congr 2
  exact decide_eq_decide.mpr (or_congr_left hnil)

/-- The ORA loop realizes a filter-and-map over the pathway rows: the five
accumulator lists are the per-row quantities of the surviving rows, in input
order. -/
lemma oraLoop_eq (enum : List (Option String) → List (Option String))
    (DA bg : List String) (l : List PathwayRow) :
    oraLoop enum DA bg l =
      ⟨(l.filter (passes enum DA bg)).map (fun r => r.id),
       (l.filter (passes enum DA bg)).map (fun r => r.name),
       (l.filter (passes enum DA bg)).map (fun r => hitsStr bg DA (pathwayCompounds enum r.slots)),
       (l.filter (passes enum DA bg)).map (fun r => covStr bg DA (pathwayCompounds enum r.slots)),
       (l.filter (passes enum DA bg)).map (pathway_pvalue enum DA bg)⟩ := by
  induction l with
  | nil => rfl
  | cons r rest ih =>
    by_cases h1 : pathwayCompounds enum r.slots = [] ∨ (pathwayCompounds enum r.slots).length < 2
    · simp [oraLoop, passes, h1, ih]
    · by_cases h2 : DA_in_pathway DA (pathwayCompounds enum r.slots) = 0 ∨
          compound_in_pathway_not_DA bg DA (pathwayCompounds enum r.slots) +
            DA_in_pathway DA (pathwayCompounds enum r.slots) < 2
      · simp [oraLoop, passes, h1, h2, ih]
      · simp [oraLoop, passes, h1, h2, ih]

lemma zip6_map (f₁ f₂ f₃ f₄ : PathwayRow → String) (f₅ f₆ : PathwayRow → ℚ)
    (l : List PathwayRow) :
    zip6 (l.map f₁) (l.map f₂) (l.map f₃) (l.map f₄) (l.map f₅) (l.map f₆) =
      l.map (fun r => ⟨f₁ r, f₂ r, f₃ r, f₄ r, f₅ r, f₆ r⟩) := by
  induction l with
  | nil => rfl
  | cons r rest ih => simp [zip6, ih]

lemma ora_assemble (enum : List (Option String) → List (Option String))
    (DA bg : List String) (s : List PathwayRow) :
    (match multipletests_fdr_bh (s.map (pathway_pvalue enum DA bg)) with
      | some padj => zip6 (s.map (fun r => r.id)) (s.map (fun r => r.name))
          (s.map (fun r => hitsStr bg DA (pathwayCompounds enum r.slots)))
          (s.map (fun r => covStr bg DA (pathwayCompounds enum r.slots)))
          (s.map (pathway_pvalue enum DA bg)) padj
      | none => []) =
      s.map (mkOraRow enum DA bg (s.map (pathway_pvalue enum DA bg))) := by
  cases s with
  | nil => rfl
  | cons a t =>
    have hne : multipletests_fdr_bh ((a :: t).map (pathway_pvalue enum DA bg)) =
        some (((a :: t).map (pathway_pvalue enum DA bg)).map
          (bhFun ((a :: t).map (pathway_pvalue enum DA bg)))) := by
      simp [multipletests_fdr_bh]
    rw [hne, List.map_map]
    exact zip6_map _ _ _ _ _ _ _

/-- Characterization of the ORA result: one built row per surviving pathway row,
in input order (the fallback branch is the degenerate empty case). -/
lemma ora_eq (enum : List (Option String) → List (Option String))
    (DA bg : List String) (rows : List PathwayRow) :
    over_representation_analysis enum DA bg rows =
      (survivorRows enum DA bg rows).map
        (mkOraRow enum DA bg ((survivorRows enum DA bg rows).map (pathway_pvalue enum DA bg))) := by
  simp only [over_representation_analysis, oraLoop_eq, survivorRows]
  exact ora_assemble enum DA bg _

/-- `min` folds are permutation-invariant. -/
lemma foldr_min_perm {l₁ l₂ : List ℚ} (h : l₁.Perm l₂) (b : ℚ) :
    l₁.foldr min b = l₂.foldr min b := by
  haveI : LeftCommutative (min : ℚ → ℚ → ℚ) := ⟨min_left_comm⟩
  exact h.foldr_eq b

lemma bhCnt_perm {l₁ l₂ : List ℚ} (h : l₁.Perm l₂) (q : ℚ) : bhCnt l₁ q = bhCnt l₂ q := by
  unfold bhCnt
  exact (h.filter _).length_eq

/-- The BH adjusted value of a given p-value depends on the collected p-value
list only through its multiset of values. -/
lemma bhFun_perm {l₁ l₂ : List ℚ} (h : l₁.Perm l₂) (p : ℚ) : bhFun l₁ p = bhFun l₂ p := by
  unfold bhFun
  have hmap : ∀ q : ℚ,
      q * ((l₁.length : ℕ) : ℚ) / ((bhCnt l₁ q : ℕ) : ℚ) =
        q * ((l₂.length : ℕ) : ℚ) / ((bhCnt l₂ q : ℕ) : ℚ) := by
    intro q
    rw [h.length_eq, bhCnt_perm h]
  rw [List.map_congr_left (fun q _ => hmap q)]
  exact foldr_min_perm ((h.filter _).map _) 1

/-! ## Group significance tester (`t_tests`, source lines 6-32) -/

/-- A floating-point scalar of the t-test numerics: NaN, a signed infinity, or a
finite value (modelled exactly as a rational). -/
inductive FVal where
  | nan : FVal
  | pinf : FVal
  | ninf : FVal
  | val (q : ℚ) : FVal
deriving DecidableEq, Repr

/-- One row of the t-test result DataFrame; `tstat` is present exactly when
`return_stat` was requested. -/
structure TRow where
  metabolite : String
  pvalue : FVal
  padj : FVal
  tstat : Option FVal
deriving DecidableEq, Repr

/-- Arithmetic mean (of a nonempty sample column). -/
def mean (l : List ℚ) : ℚ :=
  l.sum / (l.length : ℚ)

/-- Sum of squared deviations from the mean. -/
def ssd (l : List ℚ) : ℚ :=
  (l.map (fun x => (x - mean l) ^ 2)).sum

/-- Squared denominator of the pooled-variance (equal-variance) two-sample
t statistic: `sp² * (1/n1 + 1/n2)` with `sp² = (ssd₁ + ssd₂)/(n1 + n2 − 2)`. -/
def tdenSq (xs ys : List ℚ) : ℚ :=
  ((ssd xs + ssd ys) / ((xs.length : ℚ) + (ys.length : ℚ) - 2)) *
    (1 / (xs.length : ℚ) + 1 / (ys.length : ℚ))

/-- Model of `scipy.stats.ttest_ind(xs, ys)` for one column (equal-variance,
two-sided; source lines 22-23), as the pair (t statistic, p-value).
`rsqrt` abstracts the library's `x ↦ 1/sqrt(x)` on positive reals; `sf df t`
abstracts the Student-t survival function with `df` degrees of freedom.
A zero denominator gives IEEE `0/0 = NaN` when the mean difference is zero
(p-value NaN as well) and `±inf` otherwise (upper tail exactly 0). -/
def ttest_ind (rsqrt : ℚ → ℚ) (sf : ℕ → ℚ → ℚ) (xs ys : List ℚ) : FVal × FVal :=
  if tdenSq xs ys = 0 then
    if mean xs - mean ys = 0 then (FVal.nan, FVal.nan)
    else if 0 < mean xs - mean ys then (FVal.pinf, FVal.val 0)
    else (FVal.ninf, FVal.val 0)
  else
    (FVal.val ((mean xs - mean ys) * rsqrt (tdenSq xs ys)),
      FVal.val (2 * sf (xs.length + ys.length - 2)
        |(mean xs - mean ys) * rsqrt (tdenSq xs ys)|))

/-- The integer codes of `pd.factorize(classes)[0]`: each label is replaced by the
rank of its first appearance (as a numeric cell of the `Target` column). -/
def firstSeen : List String → List String
  | [] => []
  | c :: rest => c :: (firstSeen rest).filter (fun x => decide (x ≠ c))

/-- The `Target` column appended by source line 15. -/
def targetCodes (classes : List String) : List ℚ :=
  classes.map (fun c => ((firstSeen classes).indexOf c : ℚ))

/-- The `disease` group (source lines 17-18): sample rows whose factorized code is
0, i.e. whose label equals the first label. -/
def grpA (classes : List String) (vals : List ℚ) : List ℚ :=
  ((classes.zip vals).filter (fun p => decide (p.1 = classes.headD ""))).map (fun p => p.2)

/-- The `ctrl` group (source lines 19-20): sample rows with a nonzero code. -/
def grpB (classes : List String) (vals : List ℚ) : List ℚ :=
  ((classes.zip vals).filter (fun p => decide (¬ p.1 = classes.headD ""))).map (fun p => p.2)

/-- Python `zip` of the four result columns when `return_stat` is true
(source lines 27-28). -/
def zipT4 : List String → List FVal → List FVal → List FVal → List TRow
  | m :: ms, p :: ps, q :: qs, t :: ts => ⟨m, p, q, some t⟩ :: zipT4 ms ps qs ts
  | _, _, _, _ => []

/-- Python `zip` of the three result columns when `return_stat` is false
(source lines 30-31). -/
def zipT3 : List String → List FVal → List FVal → List TRow
  | m :: ms, p :: ps, q :: qs => ⟨m, p, q, none⟩ :: zipT3 ms ps qs
  | _, _, _ => []

/-- Embedding of `t_tests(matrix, classes, multiple_correction_method, return_stat)`
(source lines 6-32). The matrix is the list of its columns (name, cell values,
row-aligned with `classes`). `correction` abstracts
`sm.stats.multipletests(pvalues, 0.05, method=...)[1]` for the caller-chosen
method. The second component of the result is the caller's matrix after the
call: source line 15 assigns `matrix['Target']` on the caller's object and the
`Target` column is dropped only from the two copies (lines 17-20), never from
`matrix` itself. -/
def t_tests (rsqrt : ℚ → ℚ) (sf : ℕ → ℚ → ℚ) (correction : List FVal → List FVal)
    (matrix : List (String × List ℚ)) (classes : List String) (return_stat : Bool) :
    List TRow × List (String × List ℚ) :=
  let metabolites := matrix.map (fun c => c.1)
  let mutated := matrix ++ [("Target", targetCodes classes)]
  let tres := matrix.map (fun c => ttest_ind rsqrt sf (grpA classes c.2) (grpB classes c.2))
  let pvalues := tres.map (fun r => r.2)
  let tstat := tres.map (fun r => r.1)
  let padj := correction pvalues
  let results := if return_stat then zipT4 metabolites pvalues padj tstat
    else zipT3 metabolites pvalues padj
  (results, mutated)

/-! ## Structural lemmas about the t-test embedding -/

lemma zipT4_map_metabolite : ∀ (ms : List String) (ps qs ts : List FVal),
    ps.length = ms.length → qs.length = ms.length → ts.length = ms.length →
    (zipT4 ms ps qs ts).map (fun r => r.metabolite) = ms
  | [], _, _, _, _, _, _ => by
    simp [zipT4]
  | m :: ms, p :: ps, q :: qs, t :: ts, hp, hq, ht => by
    simp only [zipT4, List.map_cons, List.cons.injEq, true_and]
    exact zipT4_map_metabolite ms ps qs ts (by simpa using hp) (by simpa using hq)
      (by simpa using ht)

lemma zipT3_map_metabolite : ∀ (ms : List String) (ps qs : List FVal),
    ps.length = ms.length → qs.length = ms.length →
    (zipT3 ms ps qs).map (fun r => r.metabolite) = ms
  | [], _, _, _, _ => by
    simp [zipT3]
  | m :: ms, p :: ps, q :: qs, hp, hq => by
    simp only [zipT3, List.map_cons, List.cons.injEq, true_and]
    exact zipT3_map_metabolite ms ps qs (by simpa using hp) (by simpa using hq)

lemma zipT4_length : ∀ (ms : List String) (ps qs ts : List FVal),
    ps.length = ms.length → qs.length = ms.length → ts.length = ms.length →
    (zipT4 ms ps qs ts).length = ms.length
  | [], _, _, _, _, _, _ => by simp [zipT4]
  | m :: ms, p :: ps, q :: qs, t :: ts, hp, hq, ht => by
    simp only [zipT4, List.length_cons, Nat.succ.injEq]
    exact zipT4_length ms ps qs ts (by simpa using hp) (by simpa using hq) (by simpa using ht)

lemma zipT3_length : ∀ (ms : List String) (ps qs : List FVal),
    ps.length = ms.length → qs.length = ms.length →
    (zipT3 ms ps qs).length = ms.length
  | [], _, _, _, _ => by simp [zipT3]
  | m :: ms, p :: ps, q :: qs, hp, hq => by
    simp only [zipT3, List.length_cons, Nat.succ.injEq]
    exact zipT3_length ms ps qs (by simpa using hp) (by simpa using hq)

/-- The degenerate t-test: zero pooled variance and zero mean difference give
IEEE `0/0 = NaN` for both the statistic and the p-value. -/
lemma ttest_ind_nan (rsqrt : ℚ → ℚ) (sf : ℕ → ℚ → ℚ) (xs ys : List ℚ)
    (hd : tdenSq xs ys = 0) (hm : mean xs = mean ys) :
    ttest_ind rsqrt sf xs ys = (FVal.nan, FVal.nan) := by
  unfold ttest_ind
  rw [if_pos hd, if_pos (by rw [hm, sub_self])]

/-- The regular t-test branch: a nonzero pooled variance always produces finite
statistic and p-value. -/
lemma ttest_ind_finite (rsqrt : ℚ → ℚ) (sf : ℕ → ℚ → ℚ) (xs ys : List ℚ)
    (hd : tdenSq xs ys ≠ 0) :
    ttest_ind rsqrt sf xs ys =
      (FVal.val ((mean xs - mean ys) * rsqrt (tdenSq xs ys)),
        FVal.val (2 * sf (xs.length + ys.length - 2)
          |(mean xs - mean ys) * rsqrt (tdenSq xs ys)|)) := by
  unfold ttest_ind
  rw [if_neg hd]

/-- The two class-label groups of a 2/2 split with column values `[a, b, x, y]`. -/
lemma grpA_split (c d : String) (hcd : c ≠ d) (a b x y : ℚ) :
    grpA [c, c, d, d] [a, b, x, y] = [a, b] := by
  simp [grpA, hcd.symm]

lemma grpB_split (c d : String) (hcd : c ≠ d) (a b x y : ℚ) :
    grpB [c, c, d, d] [a, b, x, y] = [x, y] := by
  simp [grpB, hcd.symm]

/-- Closed form of the pooled-variance denominator for two equal-size groups of
two samples. -/
lemma tdenSq_pair (a b x y : ℚ) :
    tdenSq [a, b] [x, y] = ((a - b) ^ 2 + (x - y) ^ 2) / 4 := by
  simp only [tdenSq, ssd, mean, List.sum_cons, List.sum_nil, List.map_cons, List.map_nil,
    List.length_cons, List.length_nil]
  push_cast
  ring

lemma length_filter_add_length_filter_not {α : Type} (l : List α) (p : α → Prop)
    [DecidablePred p] :
    (l.filter (fun x => decide (p x))).length + (l.filter (fun x => decide (¬ p x))).length =
      l.length := by
  induction l with
  | nil => rfl
  | cons a t ih =>
    simp only [decide_not] at ih ⊢
    by_cases h : p a <;> simp [List.filter_cons, h] <;> omega

/-! ## Claim theorems -/

/-- C1 counterexample: the source computes `c` with `np.setdiff1d`, which returns
unique values, so the duplicate occurrence of `"C7"` in the DA list contributes
only once (`c = 1`), while the claimed list-difference count (each duplicate
occurrence contributing) would give `c = 2`. -/
theorem c1_counterexample :
    DA_not_in_pathway ["C7", "C7"] ["X1", "X2"] = 1 ∧
    DA_not_in_pathway_listdiff ["C7", "C7"] ["X1", "X2"] = 2 ∧
    DA_not_in_pathway ["C7", "C7"] ["X1", "X2"] ≠
      DA_not_in_pathway_listdiff ["C7", "C7"] ["X1", "X2"] := by
  decide

/-- C1 amended: duplicates in `DA_list` ARE deduplicated before the difference:
a repeated occurrence of an identifier already in the list leaves the count `c`
unchanged, and deduplicating `DA_list` upfront leaves it unchanged. -/
theorem c1_setdiff_dedups (x : String) (DA pc : List String) (hx : x ∈ DA) :
    DA_not_in_pathway (x :: DA) pc = DA_not_in_pathway DA pc ∧
    DA_not_in_pathway DA.dedup pc = DA_not_in_pathway DA pc := by
  constructor
  · unfold DA_not_in_pathway
    rw [List.dedup_cons_of_mem hx]
  · unfold DA_not_in_pathway
    rw [List.Nodup.dedup (List.nodup_dedup DA)]

/-- Witness for the C1 amended theorem at a concrete duplicate. -/
theorem c1_setdiff_dedups_witness :
    DA_not_in_pathway ["C7", "C7", "C9"] ["X1"] = DA_not_in_pathway ["C7", "C9"] ["X1"] ∧
    DA_not_in_pathway (["C7", "C9"].dedup) ["X1"] = DA_not_in_pathway ["C7", "C9"] ["X1"] :=
  c1_setdiff_dedups "C7" ["C7", "C9"] ["X1"] (by decide)

lemma fisher_1111 : fisher_exact_greater 1 1 1 1 = 5/6 := by
  simp [fisher_exact_greater, List.range_succ, Nat.choose]
  norm_num

lemma bh_single_56 : bhFun [5/6] (5/6) = 5/6 := by
  simp [bhFun, bhCnt]
  norm_num

lemma c2_pathway_pvalue :
    pathway_pvalue List.dedup ["C1", "C2"] ["C1", "C2", "C3", "C4"]
      ⟨"P1", "N1", [some "C1", some "C3"]⟩ = 5/6 := by
  unfold pathway_pvalue
  rw [show DA_in_pathway ["C1", "C2"]
      (pathwayCompounds List.dedup [some "C1", some "C3"]) = 1 from by decide]
  rw [show compound_in_pathway_not_DA ["C1", "C2", "C3", "C4"] ["C1", "C2"]
      (pathwayCompounds List.dedup [some "C1", some "C3"]) = 1 from by decide]
  rw [show DA_not_in_pathway ["C1", "C2"]
      (pathwayCompounds List.dedup [some "C1", some "C3"]) = 1 from by decide]
  rw [show compound_not_in_pathway_not_DA ["C1", "C2", "C3", "C4"] ["C1", "C2"]
      (pathwayCompounds List.dedup [some "C1", some "C3"]) = 1 from by decide]
  exact fisher_1111

lemma c2_ora_eval :
    over_representation_analysis List.dedup ["C1", "C2"] ["C1", "C2", "C3", "C4"]
        [⟨"P1", "N1", [some "C1", some "C3"]⟩] =
      [⟨"P1", "N1", "1/2", "2/2", 5/6, 5/6⟩] := by
  rw [ora_eq]
  rw [show survivorRows List.dedup ["C1", "C2"] ["C1", "C2", "C3", "C4"]
      [⟨"P1", "N1", [some "C1", some "C3"]⟩] =
      [⟨"P1", "N1", [some "C1", some "C3"]⟩] from by decide]
  simp only [List.map_cons, List.map_nil, mkOraRow]
  rw [c2_pathway_pvalue]
  rw [show hitsStr ["C1", "C2", "C3", "C4"] ["C1", "C2"]
      (pathwayCompounds List.dedup [some "C1", some "C3"]) = "1/2" from by decide]
  rw [show covStr ["C1", "C2", "C3", "C4"] ["C1", "C2"]
      (pathwayCompounds List.dedup [some "C1", some "C3"]) = "2/2" from by decide]
  rw [bh_single_56]

/-- C2 counterexample: on DA = `{C1, C2}`, background = `{C1, C2, C3, C4}` and the
pathway `{C1, C3}` the emitted Fisher (greater) p-value is `5/6`, not `1`. -/
theorem c2_counterexample :
    (over_representation_analysis List.dedup ["C1", "C2"] ["C1", "C2", "C3", "C4"]
        [⟨"P1", "N1", [some "C1", some "C3"]⟩]).map (fun r => r.pvalue) = [5/6] ∧
    ((5 : ℚ)/6) ≠ 1 := by
  refine ⟨?_, by norm_num⟩
  rw [c2_ora_eval]
  rfl

/-- C2 amended: the contingency table for this input is `[[1,1],[1,1]]` as the
claim states, but the one-sided (greater) Fisher exact test on it yields
p-value `5/6` (the hypergeometric upper tail `1 − 1/6`), not `1.0`; the full
result row carries that p-value. -/
theorem c2_contingency_and_pvalue :
    DA_in_pathway ["C1", "C2"] ["C1", "C3"] = 1 ∧
    compound_in_pathway_not_DA ["C1", "C2", "C3", "C4"] ["C1", "C2"] ["C1", "C3"] = 1 ∧
    DA_not_in_pathway ["C1", "C2"] ["C1", "C3"] = 1 ∧
    compound_not_in_pathway_not_DA ["C1", "C2", "C3", "C4"] ["C1", "C2"] ["C1", "C3"] = 1 ∧
    fisher_exact_greater 1 1 1 1 = 5/6 ∧
    over_representation_analysis List.dedup ["C1", "C2"] ["C1", "C2", "C3", "C4"]
        [⟨"P1", "N1", [some "C1", some "C3"]⟩] =
      [⟨"P1", "N1", "1/2", "2/2", 5/6, 5/6⟩] :=
  ⟨by decide, by decide, by decide, by decide, fisher_1111, c2_ora_eval⟩

/-- C3: evaluating `t_tests` at a concrete caller matrix shows the caller's
matrix after the call is NOT the matrix passed in: the grouping column `Target`
(source line 15) remains appended to it, so the claimed absence of observable
side effects fails on the code (the spec itself flags the reference
implementation's mutation as a defect to fix). -/
theorem c3_t_tests_mutates_caller_matrix :
    (t_tests (fun _ => 0) (fun _ _ => 1/2) id [("M1", [1, 2, 3, 4])]
        ["A", "A", "B", "B"] false).2 =
      [("M1", [1, 2, 3, 4]), ("Target", [0, 0, 1, 1])] ∧
    (t_tests (fun _ => 0) (fun _ _ => 1/2) id [("M1", [1, 2, 3, 4])]
        ["A", "A", "B", "B"] false).2 ≠
      [("M1", [1, 2, 3, 4])] := by
  decide

/-- C4: when no pathway survives the filters, the collected p-value list is
empty, the multiple-testing correction step fails (the modelled
`ZeroDivisionError` of `multipletests` on an empty list, caught by the
`except` at source line 96), and the call returns the empty result table
instead of aborting. -/
theorem c4_empty_fallback (enum : List (Option String) → List (Option String))
    (DA bg : List String) (rows : List PathwayRow)
    (h : ∀ r ∈ rows, keepRow r = false ∨ passes enum DA bg r = false) :
    over_representation_analysis enum DA bg rows = [] ∧
    multipletests_fdr_bh (oraLoop enum DA bg (rows.filter keepRow)).ps = none := by
  have hs : survivorRows enum DA bg rows = [] := by
    unfold survivorRows
    rw [List.filter_eq_nil_iff]
    intro r hr
    obtain ⟨hrows, hkeep⟩ := List.mem_filter.mp hr
    rcases h r hrows with hk | hp
    · rw [hkeep] at hk
      cases hk
    · simp [hp]
  constructor
  · rw [ora_eq, hs]
    rfl
  · rw [oraLoop_eq]
    show multipletests_fdr_bh (((rows.filter keepRow).filter (passes enum DA bg)).map
      (pathway_pvalue enum DA bg)) = none
    have : (rows.filter keepRow).filter (passes enum DA bg) = [] := hs
    rw [this]
    rfl

/-- Witness for C4: a table whose first row is all-missing and whose second row
has a single compound never reaches the correction step with data. -/
theorem c4_empty_fallback_witness :
    over_representation_analysis List.dedup ["C1"] ["C1"]
        [⟨"P1", "N1", [none, none]⟩, ⟨"P2", "N2", [some "C1", none]⟩] = [] ∧
    multipletests_fdr_bh (oraLoop List.dedup ["C1"] ["C1"]
        ([⟨"P1", "N1", [none, none]⟩, ⟨"P2", "N2", [some "C1", none]⟩].filter keepRow)).ps =
      none :=
  c4_empty_fallback List.dedup ["C1"] ["C1"]
    [⟨"P1", "N1", [none, none]⟩, ⟨"P2", "N2", [some "C1", none]⟩] (by decide)

/-- C5: a row appears in the ORA output only for an input pathway row whose
deduplicated, missing-free compound set has at least 2 members, whose hit count
`a` is nonzero and whose `a + b` is at least 2; in particular one-member
pathways and pathways with `a = 0` never appear. -/
theorem c5_output_only_if_filters {enum : List (Option String) → List (Option String)}
    (henum : ValidEnum enum) (DA bg : List String) (rows : List PathwayRow) (row : OraRow)
    (hrow : row ∈ over_representation_analysis enum DA bg rows) :
    ∃ p ∈ rows, row.id = p.id ∧
      2 ≤ ((p.slots.filterMap id).dedup).length ∧
      DA_in_pathway DA (pathwayCompounds enum p.slots) ≠ 0 ∧
      2 ≤ DA_in_pathway DA (pathwayCompounds enum p.slots) +
        compound_in_pathway_not_DA bg DA (pathwayCompounds enum p.slots) := by
  rw [ora_eq] at hrow
  obtain ⟨p, hp, hrow_eq⟩ := List.mem_map.mp hrow
  obtain ⟨hkeepmem, hpass⟩ := List.mem_filter.mp hp
  obtain ⟨hmem, _⟩ := List.mem_filter.mp hkeepmem
  have hlen : (pathwayCompounds enum p.slots).length = ((p.slots.filterMap id).dedup).length :=
    (pathwayCompounds_perm henum p.slots).length_eq
  simp only [passes, Bool.and_eq_true, Bool.not_eq_true', decide_eq_false_iff_not,
    not_or, not_lt] at hpass
  obtain ⟨⟨_, hlen2⟩, ha, hab⟩ := hpass
  refine ⟨p, hmem, ?_, ?_, ha, ?_⟩
  · rw [← hrow_eq]
    rfl
  · rw [← hlen]
    exact hlen2
  · omega

/-- Witness for C5 at a concrete surviving pathway. -/
theorem c5_output_only_if_filters_witness :
    ∃ p ∈ [(⟨"PW1", "Name1", [some "A1", some "A2"]⟩ : PathwayRow)],
      (mkOraRow List.dedup ["A1", "A2"] ["A1", "A2", "A3"]
        ((survivorRows List.dedup ["A1", "A2"] ["A1", "A2", "A3"]
            [⟨"PW1", "Name1", [some "A1", some "A2"]⟩]).map
          (pathway_pvalue List.dedup ["A1", "A2"] ["A1", "A2", "A3"]))
        ⟨"PW1", "Name1", [some "A1", some "A2"]⟩).id = p.id ∧
      2 ≤ ((p.slots.filterMap id).dedup).length ∧
      DA_in_pathway ["A1", "A2"] (pathwayCompounds List.dedup p.slots) ≠ 0 ∧
      2 ≤ DA_in_pathway ["A1", "A2"] (pathwayCompounds List.dedup p.slots) +
        compound_in_pathway_not_DA ["A1", "A2", "A3"] ["A1", "A2"]
          (pathwayCompounds List.dedup p.slots) := by
  have hmem : (mkOraRow List.dedup ["A1", "A2"] ["A1", "A2", "A3"]
      ((survivorRows List.dedup ["A1", "A2"] ["A1", "A2", "A3"]
          [⟨"PW1", "Name1", [some "A1", some "A2"]⟩]).map
        (pathway_pvalue List.dedup ["A1", "A2"] ["A1", "A2", "A3"]))
      ⟨"PW1", "Name1", [some "A1", some "A2"]⟩) ∈
      over_representation_analysis List.dedup ["A1", "A2"] ["A1", "A2", "A3"]
        [⟨"PW1", "Name1", [some "A1", some "A2"]⟩] := by
    rw [ora_eq]
    exact List.mem_map_of_mem _ (by decide)
  exact c5_output_only_if_filters validEnum_dedup ["A1", "A2"] ["A1", "A2", "A3"]
    [⟨"PW1", "Name1", [some "A1", some "A2"]⟩] _ hmem

/-- C6: result row order is preserved from the input: `t_tests` emits one row
per metabolite in the matrix's column order, `over_representation_analysis`
emits rows in the order surviving pathways appear in the input table after the
missing-row filter (`survivorRows` is a double `List.filter`, which preserves
input order), and permuting the input pathway rows permutes the output rows
identically (the outputs of two permuted inputs are permutations of each other,
row for row). -/
theorem c6_row_order (rsqrt : ℚ → ℚ) (sf : ℕ → ℚ → ℚ) (correction : List FVal → List FVal)
    (hcorr : ∀ l, (correction l).length = l.length)
    (matrix : List (String × List ℚ)) (classes : List String) (return_stat : Bool)
    (enum : List (Option String) → List (Option String)) (DA bg : List String)
    (rows rows' : List PathwayRow) (hperm : rows.Perm rows') :
    ((t_tests rsqrt sf correction matrix classes return_stat).1).map (fun r => r.metabolite) =
      matrix.map (fun c => c.1) ∧
    (over_representation_analysis enum DA bg rows).map (fun r => r.id) =
      (survivorRows enum DA bg rows).map (fun r => r.id) ∧
    (over_representation_analysis enum DA bg rows).Perm
      (over_representation_analysis enum DA bg rows') := by
  refine ⟨?_, ?_, ?_⟩
  · cases return_stat with
    | false =>
      refine zipT3_map_metabolite _ _ _ ?_ ?_
      · simp
      · rw [hcorr]
        simp
    | true =>
      refine zipT4_map_metabolite _ _ _ _ ?_ ?_ ?_
      · simp
      · rw [hcorr]
        simp
      · simp
  · rw [ora_eq, List.map_map]
    exact List.map_congr_left (fun p _ => rfl)
  · rw [ora_eq, ora_eq]
    have hsp : (survivorRows enum DA bg rows).Perm (survivorRows enum DA bg rows') :=
      (hperm.filter keepRow).filter (passes enum DA bg)
    have hpv : ((survivorRows enum DA bg rows).map (pathway_pvalue enum DA bg)).Perm
        ((survivorRows enum DA bg rows').map (pathway_pvalue enum DA bg)) := hsp.map _
    have hmk : (survivorRows enum DA bg rows').map
        (mkOraRow enum DA bg
          ((survivorRows enum DA bg rows).map (pathway_pvalue enum DA bg))) =
        (survivorRows enum DA bg rows').map
        (mkOraRow enum DA bg
          ((survivorRows enum DA bg rows').map (pathway_pvalue enum DA bg))) := by
      refine List.map_congr_left (fun p _ => ?_)
      unfold mkOraRow
      rw [bhFun_perm hpv]
    have h2 := hsp.map (mkOraRow enum DA bg
      ((survivorRows enum DA bg rows).map (pathway_pvalue enum DA bg)))
    rwa [hmk] at h2

/-- Witness for C6 at concrete inputs (the pathway lists are swaps of each
other). -/
theorem c6_row_order_witness :
    ((t_tests (fun _ => 0) (fun _ _ => 1/2) id [("M1", [1, 2]), ("M2", [3, 4])]
        ["A", "B"] false).1).map (fun r => r.metabolite) =
      ([("M1", [(1 : ℚ), 2]), ("M2", [3, 4])]).map (fun c => c.1) ∧
    (over_representation_analysis List.dedup ["B1"] ["B1", "B2"]
        [⟨"Q1", "R1", [some "B1", some "B2"]⟩, ⟨"Q2", "R2", [some "B1", none]⟩]).map
          (fun r => r.id) =
      (survivorRows List.dedup ["B1"] ["B1", "B2"]
        [⟨"Q1", "R1", [some "B1", some "B2"]⟩, ⟨"Q2", "R2", [some "B1", none]⟩]).map
          (fun r => r.id) ∧
    (over_representation_analysis List.dedup ["B1"] ["B1", "B2"]
        [⟨"Q1", "R1", [some "B1", some "B2"]⟩, ⟨"Q2", "R2", [some "B1", none]⟩]).Perm
      (over_representation_analysis List.dedup ["B1"] ["B1", "B2"]
        [⟨"Q2", "R2", [some "B1", none]⟩, ⟨"Q1", "R1", [some "B1", some "B2"]⟩]) :=
  c6_row_order (fun _ => 0) (fun _ _ => 1/2) id (fun _ => rfl)
    [("M1", [1, 2]), ("M2", [3, 4])] ["A", "B"] false List.dedup ["B1"] ["B1", "B2"]
    [⟨"Q1", "R1", [some "B1", some "B2"]⟩, ⟨"Q2", "R2", [some "B1", none]⟩]
    [⟨"Q2", "R2", [some "B1", none]⟩, ⟨"Q1", "R1", [some "B1", some "B2"]⟩]
    (List.Perm.swap (⟨"Q2", "R2", [some "B1", none]⟩ : PathwayRow)
      (⟨"Q1", "R1", [some "B1", some "B2"]⟩ : PathwayRow) [])

/-- C10: the ORA result is independent of the iteration order of the Python sets
(`list(set(...))` at source line 58): any two valid enumerations of the
per-pathway compound set produce identical result tables — every emitted count,
string and p-value depends only on set membership and the input row order. -/
theorem c10_deterministic (enum₁ enum₂ : List (Option String) → List (Option String))
    (h₁ : ValidEnum enum₁) (h₂ : ValidEnum enum₂) (DA bg : List String)
    (rows : List PathwayRow) :
    over_representation_analysis enum₁ DA bg rows =
      over_representation_analysis enum₂ DA bg rows := by
  have hpass : ∀ r, passes enum₁ DA bg r = passes enum₂ DA bg r := passes_congr h₁ h₂ DA bg
  have hs : survivorRows enum₁ DA bg rows = survivorRows enum₂ DA bg rows := by
    unfold survivorRows
    exact List.filter_congr (fun r _ => hpass r)
  have hpv : ∀ r, pathway_pvalue enum₁ DA bg r = pathway_pvalue enum₂ DA bg r :=
    pathway_pvalue_congr h₁ h₂ DA bg
  rw [ora_eq, ora_eq, hs, List.map_congr_left (fun r _ => hpv r)]
  refine List.map_congr_left (fun p _ => ?_)
  unfold mkOraRow
  have hpc := pathwayCompounds_perm_two h₁ h₂ p.slots
  rw [hitsStr_congr hpc, covStr_congr hpc, hpv p]

/-- Witness for C10: the canonical and the reversed enumeration at a concrete
input. -/
theorem c10_deterministic_witness :
    over_representation_analysis List.dedup ["D1", "D2"] ["D1", "D2", "D3"]
        [⟨"P9", "N9", [some "D2", some "D3", some "D2"]⟩] =
      over_representation_analysis (fun l => l.dedup.reverse) ["D1", "D2"] ["D1", "D2", "D3"]
        [⟨"P9", "N9", [some "D2", some "D3", some "D2"]⟩] :=
  c10_deterministic List.dedup (fun l => l.dedup.reverse) validEnum_dedup
    validEnum_dedup_reverse ["D1", "D2"] ["D1", "D2", "D3"]
    [⟨"P9", "N9", [some "D2", some "D3", some "D2"]⟩]

/-- C7 counterexample: a 2-metabolite, 4-sample matrix split 2/2 where the first
column's group A values equal its group B values (`[5,5]` both), yet the
emitted p-value is NaN — not `1.0` — because the column is constant
(`0/0` in the t statistic), refuting the claim as stated. -/
theorem c7_counterexample :
    grpA ["A", "A", "B", "B"] [5, 5, 5, 5] = grpB ["A", "A", "B", "B"] [5, 5, 5, 5] ∧
    ((t_tests (fun _ => 0) (fun _ _ => 1/2) id
        [("M1", [5, 5, 5, 5]), ("M2", [0, 0, 0, 0])] ["A", "A", "B", "B"] true).1).head?.map
          (fun r => r.pvalue) = some FVal.nan ∧
    ((t_tests (fun _ => 0) (fun _ _ => 1/2) id
        [("M1", [5, 5, 5, 5]), ("M2", [0, 0, 0, 0])] ["A", "A", "B", "B"] true).1).head?.map
          (fun r => r.tstat) = some (some FVal.nan) ∧
    FVal.nan ≠ FVal.val 1 := by
  have h5 : ttest_ind (fun _ => (0 : ℚ)) (fun _ _ => 1/2) [5, 5] [5, 5] =
      (FVal.nan, FVal.nan) :=
    ttest_ind_nan _ _ _ _ (by rw [tdenSq_pair]; norm_num) rfl
  have h0 : ttest_ind (fun _ => (0 : ℚ)) (fun _ _ => 1/2) [0, 0] [0, 0] =
      (FVal.nan, FVal.nan) :=
    ttest_ind_nan _ _ _ _ (by rw [tdenSq_pair]; norm_num) rfl
  simp only [one_div] at h5 h0
  refine ⟨by decide, ?_, ?_, by decide⟩ <;>
    simp [t_tests, show grpA ["A", "A", "B", "B"] [(5 : ℚ), 5, 5, 5] = [5, 5] from by decide,
      show grpB ["A", "A", "B", "B"] [(5 : ℚ), 5, 5, 5] = [5, 5] from by decide,
      show grpA ["A", "A", "B", "B"] [(0 : ℚ), 0, 0, 0] = [0, 0] from by decide,
      show grpB ["A", "A", "B", "B"] [(0 : ℚ), 0, 0, 0] = [0, 0] from by decide,
      h5, h0, zipT4]

/-- C7 amended: in a 2-metabolite, 4-sample matrix split 2/2 by two distinct
labels, a column whose group A values equal its group B values AND whose groups
are not constant (`a ≠ b`, so the pooled variance is nonzero) yields raw
p-value exactly 1 and t statistic exactly 0 — using only the Student-t symmetry
`sf 2 0 = 1/2` of the library survival function. -/
theorem c7_equal_groups (rsqrt : ℚ → ℚ) (sf : ℕ → ℚ → ℚ) (correction : List FVal → List FVal)
    (hcorr : ∀ l, (correction l).length = l.length)
    (m₁ m₂ c d : String) (a b : ℚ) (other : List ℚ)
    (hcd : c ≠ d) (hab : a ≠ b) (hsf : sf 2 0 = 1/2) :
    ((t_tests rsqrt sf correction [(m₁, [a, b, a, b]), (m₂, other)]
        [c, c, d, d] true).1).head?.map (fun r => r.pvalue) = some (FVal.val 1) ∧
    ((t_tests rsqrt sf correction [(m₁, [a, b, a, b]), (m₂, other)]
        [c, c, d, d] true).1).head?.map (fun r => r.tstat) = some (some (FVal.val 0)) := by
  have hd : tdenSq [a, b] [a, b] ≠ 0 := by
    rw [tdenSq_pair]
    intro h
    apply hab
    have h2 : (a - b) ^ 2 = 0 := by
      have := (div_eq_zero_iff.mp h).resolve_right (by norm_num)
      nlinarith [sq_nonneg (a - b)]
    exact sub_eq_zero.mp (pow_eq_zero_iff (by norm_num)|>.mp h2)
  have htt : ttest_ind rsqrt sf [a, b] [a, b] = (FVal.val 0, FVal.val 1) := by
    rw [ttest_ind_finite rsqrt sf _ _ hd]
    norm_num [hsf]
  set p₂ := (ttest_ind rsqrt sf (grpA [c, c, d, d] other) (grpB [c, c, d, d] other)).2 with hp₂
  set t₂ := (ttest_ind rsqrt sf (grpA [c, c, d, d] other) (grpB [c, c, d, d] other)).1 with ht₂
  have hq : ∃ q qs, correction [FVal.val 1, p₂] = q :: qs := by
    cases hcq : correction [FVal.val 1, p₂] with
    | nil =>
      have := hcorr [FVal.val 1, p₂]
      rw [hcq] at this
      simp at this
    | cons q qs => exact ⟨q, qs, rfl⟩
  obtain ⟨q, qs, hcq⟩ := hq
  constructor <;>
    simp [t_tests, grpA_split c d hcd, grpB_split c d hcd, htt, ← hp₂, ← ht₂, hcq, zipT4]

/-- Witness for the C7 amended theorem at concrete values. -/
theorem c7_equal_groups_witness :
    ((t_tests (fun _ => 0) (fun _ _ => 1/2) id [("M1", [1, 2, 1, 2]), ("M2", [0, 0, 0, 0])]
        ["A", "A", "B", "B"] true).1).head?.map (fun r => r.pvalue) = some (FVal.val 1) ∧
    ((t_tests (fun _ => 0) (fun _ _ => 1/2) id [("M1", [1, 2, 1, 2]), ("M2", [0, 0, 0, 0])]
        ["A", "A", "B", "B"] true).1).head?.map (fun r => r.tstat) =
      some (some (FVal.val 0)) :=
  c7_equal_groups (fun _ => 0) (fun _ _ => 1/2) id (fun _ => rfl) "M1" "M2" "A" "B" 1 2
    [0, 0, 0, 0] (by decide) (by norm_num) rfl

/-- C8 counterexample: the first metabolite column `[1,1,2,3]` has zero variance
in group A (`[1,1]`), yet its result-row p-value is the finite value `1/5`
(with the survival function modelled as the constant `1/10`), not NaN: a
zero-variance group does not by itself make the t-test undefined when the other
group has positive variance. -/
theorem c8_counterexample :
    ssd (grpA ["A", "A", "B", "B"] [1, 1, 2, 3]) = 0 ∧
    ((t_tests (fun _ => 2) (fun _ _ => 1/10) id
        [("M1", [1, 1, 2, 3]), ("M2", [0, 1, 0, 1])] ["A", "A", "B", "B"] false).1).head?.map
          (fun r => r.pvalue) = some (FVal.val (1/5)) ∧
    FVal.val (1/5) ≠ FVal.nan := by
  have hga : grpA ["A", "A", "B", "B"] [(1 : ℚ), 1, 2, 3] = [1, 1] := by decide
  have hgb : grpB ["A", "A", "B", "B"] [(1 : ℚ), 1, 2, 3] = [2, 3] := by decide
  have hga2 : grpA ["A", "A", "B", "B"] [(0 : ℚ), 1, 0, 1] = [0, 1] := by decide
  have hgb2 : grpB ["A", "A", "B", "B"] [(0 : ℚ), 1, 0, 1] = [0, 1] := by decide
  have htt1 : ttest_ind (fun _ => (2 : ℚ)) (fun _ _ => 1/10) [1, 1] [2, 3] =
      (FVal.val (-3), FVal.val (1/5)) := by
    rw [ttest_ind_finite _ _ _ _ (by rw [tdenSq_pair]; norm_num)]
    norm_num [mean]
  have htt2 : ttest_ind (fun _ => (2 : ℚ)) (fun _ _ => 1/10) [0, 1] [0, 1] =
      (FVal.val 0, FVal.val (1/5)) := by
    rw [ttest_ind_finite _ _ _ _ (by rw [tdenSq_pair]; norm_num)]
    norm_num [mean]
  simp only [one_div] at htt1 htt2
  refine ⟨by rw [hga]; norm_num [ssd, mean], ?_, by decide⟩
  simp [t_tests, hga, hgb, hga2, hgb2, htt1, htt2, zipT3]

/-- C8 amended: `t_tests` never raises — it always returns one result row per
metabolite column; a column with zero pooled variance and equal group means
(e.g. both groups constant with the same value) propagates NaN as its p-value,
while a column with nonzero pooled variance (in particular, zero variance in
only one group) yields a finite p-value. -/
theorem c8_no_raise (rsqrt : ℚ → ℚ) (sf : ℕ → ℚ → ℚ) (correction : List FVal → List FVal)
    (hcorr : ∀ l, (correction l).length = l.length) :
    (∀ (matrix : List (String × List ℚ)) (classes : List String) (return_stat : Bool),
      ((t_tests rsqrt sf correction matrix classes return_stat).1).length = matrix.length) ∧
    (∀ xs ys : List ℚ, tdenSq xs ys ≠ 0 →
      ∃ q : ℚ, (ttest_ind rsqrt sf xs ys).2 = FVal.val q) ∧
    (∀ xs ys : List ℚ, tdenSq xs ys = 0 → mean xs = mean ys →
      (ttest_ind rsqrt sf xs ys).2 = FVal.nan) := by
  refine ⟨?_, ?_, ?_⟩
  · intro matrix classes rs
    cases rs with
    | false =>
      refine Eq.trans (zipT3_length _ _ _ ?_ ?_) ?_
      · simp
      · rw [hcorr]
        simp
      · simp
    | true =>
      refine Eq.trans (zipT4_length _ _ _ _ ?_ ?_ ?_) ?_
      · simp
      · rw [hcorr]
        simp
      · simp
      · simp
  · intro xs ys hd
    exact ⟨_, by rw [ttest_ind_finite rsqrt sf xs ys hd]⟩
  · intro xs ys hd hm
    rw [ttest_ind_nan rsqrt sf xs ys hd hm]

/-- Witness for the C8 amended theorem at concrete inputs: a full table is
returned for a 1-column matrix, the one-degenerate-group column `[1,1]` vs
`[2,3]` has a finite p-value, and the both-constant column `[1,1]` vs `[1,1]`
has a NaN p-value. -/
theorem c8_no_raise_witness :
    ((t_tests (fun _ => 2) (fun _ _ => 1/10) id [("M1", [1, 1, 2, 3])]
        ["A", "A", "B", "B"] false).1).length = 1 ∧
    (∃ q : ℚ, (ttest_ind (fun _ => (2 : ℚ)) (fun _ _ => 1/10) [1, 1] [2, 3]).2 = FVal.val q) ∧
    (ttest_ind (fun _ => (2 : ℚ)) (fun _ _ => 1/10) [1, 1] [1, 1]).2 = FVal.nan :=
  ⟨(c8_no_raise (fun _ => 2) (fun _ _ => 1/10) id (fun _ => rfl)).1
      [("M1", [1, 1, 2, 3])] ["A", "A", "B", "B"] false,
    (c8_no_raise (fun _ => 2) (fun _ _ => 1/10) id (fun _ => rfl)).2.1 [1, 1] [2, 3]
      (by rw [tdenSq_pair]; norm_num),
    (c8_no_raise (fun _ => 2) (fun _ _ => 1/10) id (fun _ => rfl)).2.2 [1, 1] [1, 1]
      (by rw [tdenSq_pair]; norm_num) rfl⟩

/-- C9: for every pathway (and hence every emitted row), the first-column
marginal `a + c` of the contingency table equals the number of distinct
identifiers in `DA_list`; the formula does not involve the background list. -/
theorem c9_first_column_marginal (DA pc : List String) :
    DA_in_pathway DA pc + DA_not_in_pathway DA pc = DA.dedup.length := by
  unfold DA_in_pathway DA_not_in_pathway
  exact length_filter_add_length_filter_not DA.dedup (fun x => x ∈ pc)

end PathwayFunctions
